import Mathlib

/-!
Shallow embedding of `simple_chatbot.py` and `simple_agent.py` from the
repository `kyohei3/ai-agent-without-framework`.

The language-model backend and the web-search backend are external
collaborators: they are modelled as parameters (the assistant reply the
model returns for a request, the result list the search engine returns for
a query, and the JSON decoder applied to the raw tool-call argument
string).  Everything the repository's own code does — history accumulation,
the request construction, the tool-call protocol, the 4-state loop of
`SimpleAgent.run` — is translated directly from the source.
-/

namespace AgentRepo

/-- The states of the agent, from `class State` in `simple_agent.py`. -/
inductive State where
  | START
  | LLM_CALL
  | TOOL_RUN
  | END
deriving DecidableEq, Repr

/-- The `function` sub-object of a tool call in an OpenAI assistant reply:
a function name and the raw (undecoded) JSON argument string. -/
structure FunctionSpec where
  name : String
  arguments : String
deriving DecidableEq, Repr

/-- One tool call as it appears in the OpenAI assistant reply
(`assistant_response.tool_calls` elements): id, type and function. -/
structure RawToolCall where
  id : String
  type : String
  function : FunctionSpec
deriving DecidableEq, Repr

/-- The assistant message object returned by the model
(`completion.choices[0].message`): optional text content and an optional
list of tool calls. -/
structure AssistantMessage where
  content : Option String
  tool_calls : Option (List RawToolCall)
deriving DecidableEq, Repr

/-- A decoded tool-call argument dictionary (`dict[str, Any]` produced by
`json.loads`), modelled as an association list from keys to values. -/
abbrev Args := List (String × String)

/-- The `ToolCall` pydantic model of `simple_agent.py`: the decoded
tool-call information handed to `_run_tool`. -/
structure ToolCall where
  id : String
  type : String
  function_name : String
  arguments : Args
deriving DecidableEq, Repr

/-- One entry of `_message_history` (or the system message).  Each
constructor mirrors one of the dict shapes the code builds: the system
message, a user message, the assistant message appended by `_get_response`
(whose `content` and `tool_calls` keys are each present or absent), and the
tool message appended by `_run_tool`. -/
inductive Message where
  | system (content : String)
  | user (content : String)
  | assistant (content : Option String) (tool_calls : Option (List RawToolCall))
  | tool (tool_call_id : String) (content : String)
deriving DecidableEq, Repr

/-- Python truthiness of `str | None`: `None` and `""` are falsy. -/
def optStrTruthy : Option String → Bool
  | none => false
  | some s => s != ""

/-- Python truthiness of an optional list: `None` and `[]` are falsy. -/
def optListTruthy {α : Type} : Option (List α) → Bool
  | none => false
  | some l => !l.isEmpty

/-- The `content` key of the assistant message `_get_response` appends:
present exactly when the reply content is truthy
(`if assistant_response.content:`). -/
def contentField (c : Option String) : Option String :=
  if optStrTruthy c then c else none

/-- The `tool_calls` key of the assistant message `_get_response` appends:
present exactly when the reply has a truthy tool-call list
(`if assistant_response.tool_calls:`). -/
def toolCallsField (t : Option (List RawToolCall)) : Option (List RawToolCall) :=
  if optListTruthy t then t else none

/-- The assistant message `SimpleAgent._get_response` appends to the
history (the `message_to_add` dict). -/
def assistantMsgOf (ar : AssistantMessage) : Message :=
  Message.assistant (contentField ar.content) (toolCallsField ar.tool_calls)

/-- The user messages appended for a given `user_query` value: one message
when the query is truthy (`if user_query:`), none otherwise. -/
def userDelta (user_query : Option String) : List Message :=
  match user_query with
  | some q => if q = "" then [] else [Message.user q]
  | none => []

/-- Conversion of one raw tool call into the `ToolCall` pydantic value,
with `decode` standing for `json.loads` on the raw argument string. -/
def toToolCall (decode : String → Args) (t : RawToolCall) : ToolCall :=
  ToolCall.mk t.id t.type t.function.name (decode t.function.arguments)

/-- Python `"k" in d` on the decoded argument dictionary. -/
def hasKey (args : Args) (k : String) : Bool :=
  args.any (fun p => p.1 = k)

/-- Python `d["k"]` on the decoded argument dictionary (used only under a
`hasKey` guard in the source). -/
def getArg (args : Args) (k : String) : String :=
  ((args.find? (fun p => p.1 = k)).map Prod.snd).getD ""

/-- One result dict returned by `ddgs.text` (title, href, body). -/
structure SearchResult where
  title : String
  href : String
  body : String
deriving DecidableEq, Repr

/-- The f-string block built for one search result:
`Title: ...\nURL: ...\nBody: ...`. -/
def formatResult (d : SearchResult) : String :=
  "Title: " ++ d.title ++ "\n" ++ "URL: " ++ d.href ++ "\n" ++ "Body: " ++ d.body

/-- `"\n\n".join(...)` over the formatted search-result blocks. -/
def joinResults (rs : List SearchResult) : String :=
  String.intercalate "\n\n" (rs.map formatResult)

namespace SimpleChatbot

/-- `SimpleChatbot._get_response`: appends the user message, builds the
request `[system_message, *message_history]`, appends the assistant reply
when its content is truthy, and returns the reply content.  The model
backend is a parameter: `content` is `completion.choices[0].message.content`.
Returns (request messages sent to the model, new history, return value). -/
def getResponse (system_message : Message) (history : List Message)
    (user_query : String) (content : Option String) :
    List Message × List Message × Option String :=
  let history1 := history ++ [Message.user user_query]
  let request := system_message :: history1
  let history2 :=
    if optStrTruthy content then
      history1 ++ [Message.assistant content none]
    else history1
  (request, history2, content)

end SimpleChatbot

namespace SimpleAgent

/-- The mutable part of a `SimpleAgent` object: its `_message_history` and
`_state` fields. -/
structure Agent where
  message_history : List Message
  state : State
deriving DecidableEq, Repr

/-- `SimpleAgent._get_response`: appends the user message when `user_query`
is truthy, appends the assistant message (with `content` / `tool_calls`
keys present exactly when truthy), then returns the `ToolCall` list when
the reply has truthy tool calls and `content or ""` otherwise.  The model
backend is a parameter: `ar` is `completion.choices[0].message`; `decode`
is `json.loads`.  The `Option` in the result mirrors the declared return
type `str | list[ToolCall] | None`. -/
def getResponse (decode : String → Args) (a : Agent)
    (user_query : Option String) (ar : AssistantMessage) :
    Agent × Option (String ⊕ List ToolCall) :=
  let history1 := a.message_history ++ userDelta user_query
  let history2 := history1 ++ [assistantMsgOf ar]
  let result : Option (String ⊕ List ToolCall) :=
    match ar.tool_calls with
    | some l =>
        if l = [] then some (Sum.inl (ar.content.getD ""))
        else some (Sum.inr (l.map (toToolCall decode)))
    | none => some (Sum.inl (ar.content.getD ""))
  ({ a with message_history := history2 }, result)

/-- `SimpleAgent._run_tool`: raises `ValueError` when the tool name is not
`"search"` or the `"query"` argument is missing (before touching the
history); otherwise runs the search, appends the tool message and returns
the joined result string.  The search backend is a parameter: `ddgs q` is
the result list of `ddgs.text(keywords=q, region="jp-jp")`.  The first
component is the agent state after the call (unchanged on error, since both
raises occur before the append). -/
def runTool (ddgs : String → List SearchResult) (a : Agent)
    (tc : ToolCall) : Agent × Except String String :=
  if tc.function_name ≠ "search" then
    (a, Except.error ("Unsupported tool: " ++ tc.function_name))
  else if ¬ hasKey tc.arguments "query" then
    (a, Except.error "query argument is required for search tool.")
  else
    let tool_response := joinResults (ddgs (getArg tc.arguments "query"))
    ({ a with message_history :=
        a.message_history ++ [Message.tool tc.id tool_response] },
     Except.ok tool_response)

/-- The `for tool_call in response: self._run_tool(tool_call)` loop of the
`TOOL_RUN` branch: runs the tools in order, stopping at the first
`ValueError` (which propagates out of `run`, uncaught). -/
def runToolLoop (ddgs : String → List SearchResult) (a : Agent) :
    List ToolCall → Agent × Option String
  | [] => (a, none)
  | tc :: rest =>
      match runTool ddgs a tc with
      | (a1, Except.error e) => (a1, some e)
      | (a1, Except.ok _) => runToolLoop ddgs a1 rest

/-- The tool message `_run_tool` appends for a successfully executed tool
call: role `tool`, the call's id, and the joined search-result blocks. -/
def toolMsgOf (ddgs : String → List SearchResult) (tc : ToolCall) : Message :=
  Message.tool tc.id (joinResults (ddgs (getArg tc.arguments "query")))

/-- A configuration of the `run` loop: the agent object plus the local
variables `user_query` and `response` (`none` until first assigned). -/
structure Config where
  agent : Agent
  user_query : Option String
  response : Option (String ⊕ List ToolCall)
deriving DecidableEq, Repr

/-- The configuration at the top of `run`: fresh agent in `START`,
`user_query = None`, `response` unassigned. -/
def initConfig : Config :=
  { agent := { message_history := [], state := State.START },
    user_query := none, response := none }

/-- An exception escaping one iteration of the `run` loop: a `ValueError`
raised by `_run_tool`, or one of the two `isinstance` guards in the
`TOOL_RUN` / `END` branches. -/
inductive RunError where
  | toolError (msg : String)
  | typeGuard (msg : String)
deriving DecidableEq, Repr

/-- One iteration of the `while True` / `match self._state` loop of
`SimpleAgent.run`.  The environment supplies the user input read in
`START` and the model reply used in `LLM_CALL`.  Returns the configuration
after the iteration together with the exception it raised, if any (the
configuration then reflects the mutations made before the raise). -/
def step (decode : String → Args) (ddgs : String → List SearchResult)
    (input : String) (ar : AssistantMessage) (c : Config) :
    Config × Option RunError :=
  match c.agent.state with
  | State.START =>
      ({ c with user_query := some input,
                agent := { c.agent with state := State.LLM_CALL } }, none)
  | State.LLM_CALL =>
      let gr := getResponse decode c.agent c.user_query ar
      let st :=
        match gr.2 with
        | some (Sum.inl _) => State.END
        | some (Sum.inr _) => State.TOOL_RUN
        | none => State.LLM_CALL
      ({ agent := { gr.1 with state := st },
         user_query := none, response := gr.2 }, none)
  | State.TOOL_RUN =>
      match c.response with
      | some (Sum.inr tcs) =>
          match runToolLoop ddgs c.agent tcs with
          | (a1, some e) => ({ c with agent := a1 }, some (RunError.toolError e))
          | (a1, none) =>
              ({ c with agent := { a1 with state := State.LLM_CALL } }, none)
      | _ => (c, some (RunError.typeGuard "response must be a list of ToolCall."))
  | State.END =>
      match c.response with
      | some (Sum.inl _) =>
          ({ c with agent := { c.agent with state := State.START } }, none)
      | _ => (c, some (RunError.typeGuard "response must be a string."))

/-- The configurations the `run` loop can reach from its initial
configuration via exception-free iterations, over arbitrary environment
behaviour. -/
inductive Reachable (decode : String → Args)
    (ddgs : String → List SearchResult) : Config → Prop where
  | init : Reachable decode ddgs initConfig
  | next (c c' : Config) (input : String) (ar : AssistantMessage) :
      Reachable decode ddgs c →
      step decode ddgs input ar c = (c', none) →
      Reachable decode ddgs c'

end SimpleAgent

/-- Recognizer for user messages, used to count user turns. -/
def isUserMsg : Message → Bool
  | Message.user _ => true
  | _ => false

/-- Recognizer for assistant messages. -/
def isAssistantMsg : Message → Bool
  | Message.assistant _ _ => true
  | _ => false

/-- Recognizer for tool messages. -/
def isToolMsg : Message → Bool
  | Message.tool _ _ => true
  | _ => false

/-- A concrete JSON decoder for concrete evaluations. -/
def decode0 : String → Args := fun _ => [("query", "news")]

/-- A concrete search backend for concrete evaluations. -/
def ddgs0 : String → List SearchResult := fun _ => [⟨"t", "u", "b"⟩]

/-- A concrete valid tool call (name `search`, has a `query` argument). -/
def tc0 : ToolCall := ⟨"call1", "function", "search", [("query", "news")]⟩

/-- A concrete invalid tool call (unsupported name). -/
def badTc0 : ToolCall := ⟨"call2", "function", "calc", []⟩

/-- A concrete agent object. -/
def agent0 : SimpleAgent.Agent := ⟨[], State.START⟩

/-- A concrete text-only model reply. -/
def arText0 : AssistantMessage := ⟨some "hello", none⟩

/-- A concrete raw tool call as found in a model reply. -/
def rawTc0 : RawToolCall := ⟨"call1", "function", ⟨"search", "argjson"⟩⟩

/-- A concrete tool-calling model reply with one raw tool call. -/
def arTools0 : AssistantMessage := ⟨none, some [rawTc0]⟩

/-- A concrete configuration in state `TOOL_RUN` holding one valid tool
call, as produced by an `LLM_CALL` iteration. -/
def cfgTR0 : SimpleAgent.Config :=
  { agent := ⟨[], State.TOOL_RUN⟩, user_query := none,
    response := some (Sum.inr [tc0]) }

/-- A concrete configuration in state `LLM_CALL`. -/
def cfgLC0 : SimpleAgent.Config :=
  { agent := ⟨[], State.LLM_CALL⟩, user_query := some "hi", response := none }

/-- The configuration after one `run` iteration from the initial one with
an empty user input. -/
def emptyTurn1 : SimpleAgent.Config :=
  (SimpleAgent.step decode0 ddgs0 "" arText0 SimpleAgent.initConfig).1

/-- The configuration after two iterations (empty input, text reply). -/
def emptyTurn2 : SimpleAgent.Config :=
  (SimpleAgent.step decode0 ddgs0 "" arText0 emptyTurn1).1

/-- The configuration after three iterations: the turn is complete and the
loop is back in `START`. -/
def emptyTurn3 : SimpleAgent.Config :=
  (SimpleAgent.step decode0 ddgs0 "" arText0 emptyTurn2).1

end AgentRepo

namespace AgentRepo

open SimpleAgent

/-- C3 counterexample: with a model reply whose content is `None`, the
history after `SimpleChatbot._get_response` ends in the user message and
contains no assistant message at all, so the reply is not appended as an
assistant turn as the claim states. -/
theorem chatbot_reply_not_always_appended :
    (SimpleChatbot.getResponse (Message.system "s") [] "hi" none).2.1 =
      [Message.user "hi"] ∧
    List.countP isAssistantMsg
      (SimpleChatbot.getResponse (Message.system "s") [] "hi" none).2.1 = 0 := by
  decide

/-- C3 (amended): `SimpleChatbot._get_response` appends the user message,
invokes the model with exactly the system message followed by the whole
accumulated history ending in that user message, appends the reply as an
assistant turn exactly when its content is truthy (non-`None`, non-empty),
and returns the reply content unchanged. -/
theorem chatbot_getResponse_spec (sys : Message) (h : List Message)
    (q : String) (content : Option String) :
    (SimpleChatbot.getResponse sys h q content).1 =
      sys :: (h ++ [Message.user q]) ∧
    (SimpleChatbot.getResponse sys h q content).2.1 =
      (h ++ [Message.user q]) ++
        (if optStrTruthy content then [Message.assistant content none] else []) ∧
    (SimpleChatbot.getResponse sys h q content).2.2 = content := by
  unfold SimpleChatbot.getResponse
  by_cases hc : optStrTruthy content <;> simp [hc]

/-- C10: when the model reply content is `None` or `""`,
`SimpleChatbot._get_response` appends no assistant message — the history
grows by exactly the one user message, which then has no following
assistant reply — and the falsy content is returned unchanged. -/
theorem chatbot_falsy_content_no_assistant (sys : Message) (h : List Message)
    (q : String) (content : Option String)
    (hf : content = none ∨ content = some "") :
    (SimpleChatbot.getResponse sys h q content).2.1 = h ++ [Message.user q] ∧
    ((SimpleChatbot.getResponse sys h q content).2.1).getLast? =
      some (Message.user q) ∧
    (SimpleChatbot.getResponse sys h q content).2.2 = content := by
  rcases hf with hf | hf <;> subst hf <;>
    simp [SimpleChatbot.getResponse, optStrTruthy]

/-- C10 witness: the falsy-content theorem applied at a concrete reply. -/
theorem chatbot_falsy_content_no_assistant_witness :
    (SimpleChatbot.getResponse (Message.system "s") [] "q" none).2.1 =
      [] ++ [Message.user "q"] ∧
    ((SimpleChatbot.getResponse (Message.system "s") [] "q" none).2.1).getLast? =
      some (Message.user "q") ∧
    (SimpleChatbot.getResponse (Message.system "s") [] "q" none).2.2 = none :=
  chatbot_falsy_content_no_assistant (Message.system "s") [] "q" none (Or.inl rfl)

/-- C2: `_run_tool` fails with `ValueError` exactly when the tool name is
not `"search"` or the arguments lack the key `"query"`, and whenever it
fails the agent (in particular its message history) is unchanged. -/
theorem runTool_error_iff (ddgs : String → List SearchResult)
    (a : Agent) (tc : ToolCall) :
    ((∃ e, (runTool ddgs a tc).2 = Except.error e) ↔
      (tc.function_name ≠ "search" ∨ hasKey tc.arguments "query" = false)) ∧
    (∀ e, (runTool ddgs a tc).2 = Except.error e → (runTool ddgs a tc).1 = a) := by
  unfold runTool
  by_cases h1 : tc.function_name = "search" <;>
    by_cases h2 : hasKey tc.arguments "query" <;> simp [h1, h2]

/-- C2 witness: the error characterization applied to a concrete
unsupported tool call. -/
theorem runTool_error_iff_witness :
    (∃ e, (runTool ddgs0 agent0 badTc0).2 = Except.error e) ∧
    (runTool ddgs0 agent0 badTc0).1 = agent0 := by
  refine ⟨(runTool_error_iff ddgs0 agent0 badTc0).1.mpr (by decide), ?_⟩
  exact (runTool_error_iff ddgs0 agent0 badTc0).2
    ("Unsupported tool: " ++ badTc0.function_name) rfl

/-- C7: on a valid tool call (`search` with a `query` argument),
`_run_tool` appends exactly one tool message — carrying the tool call's id
and the joined `Title/URL/Body` blocks — returns that same string, and
changes nothing else: prior history entries and the `_state` field are
untouched. -/
theorem runTool_success (ddgs : String → List SearchResult)
    (a : Agent) (tc : ToolCall)
    (h1 : tc.function_name = "search")
    (h2 : hasKey tc.arguments "query" = true) :
    runTool ddgs a tc =
      ({ a with message_history := a.message_history ++
          [Message.tool tc.id (joinResults (ddgs (getArg tc.arguments "query")))] },
       Except.ok (joinResults (ddgs (getArg tc.arguments "query")))) ∧
    (runTool ddgs a tc).1.state = a.state := by
  constructor
  · unfold runTool
    simp [h1, h2]
  · unfold runTool
    simp [h1, h2]

/-- Helper: the agent after `_get_response` carries the old history plus
the user message (when truthy) plus the one assistant message, and its
`_state` field is untouched. -/
theorem aux_getResponse_fst (decode : String → Args) (a : Agent)
    (uq : Option String) (ar : AssistantMessage) :
    (getResponse decode a uq ar).1 =
      { a with message_history :=
          a.message_history ++ userDelta uq ++ [assistantMsgOf ar] } := by
  unfold getResponse
  simp

/-- Helper: the value `_get_response` returns, as a single closed form:
the decoded tool-call list when the reply's tool calls are truthy, and
`content or ""` otherwise. -/
theorem aux_getResponse_snd (decode : String → Args) (a : Agent)
    (uq : Option String) (ar : AssistantMessage) :
    (getResponse decode a uq ar).2 =
      if optListTruthy ar.tool_calls then
        some (Sum.inr ((ar.tool_calls.getD []).map (toToolCall decode)))
      else some (Sum.inl (ar.content.getD "")) := by
  unfold getResponse optListTruthy
  rcases ar.tool_calls with _ | ⟨_ | ⟨t, l⟩⟩ <;> simp

/-- Helper: `_get_response` returns either a text reply or a non-empty
tool-call list. -/
theorem aux_getResponse_shape (decode : String → Args) (a : Agent)
    (uq : Option String) (ar : AssistantMessage) :
    (∃ s, (getResponse decode a uq ar).2 = some (Sum.inl s)) ∨
    (∃ l, l ≠ [] ∧ (getResponse decode a uq ar).2 = some (Sum.inr l)) := by
  rw [aux_getResponse_snd]
  rcases ar.tool_calls with _ | ⟨_ | ⟨t, l⟩⟩ <;> simp [optListTruthy]

/-- C7 witness: the success theorem applied to a concrete valid call. -/
theorem runTool_success_witness :
    runTool ddgs0 agent0 tc0 =
      ({ agent0 with message_history := agent0.message_history ++
          [Message.tool tc0.id (joinResults (ddgs0 (getArg tc0.arguments "query")))] },
       Except.ok (joinResults (ddgs0 (getArg tc0.arguments "query")))) ∧
    (runTool ddgs0 agent0 tc0).1.state = agent0.state :=
  runTool_success ddgs0 agent0 tc0 (by decide) (by decide)

/-- C6: when the model reply has tool calls, `_get_response` appends one
assistant message recording all of them (id, type, function name, raw
argument string), and returns one `ToolCall` per model tool call, in the
same order, copying id, type and function name and decoding the raw
argument string with `json.loads`. -/
theorem getResponse_tool_calls_spec (decode : String → Args) (a : Agent)
    (uq : Option String) (ar : AssistantMessage) (l : List RawToolCall)
    (h1 : ar.tool_calls = some l) (h2 : l ≠ []) :
    (getResponse decode a uq ar).1.message_history =
      a.message_history ++ userDelta uq ++
        [Message.assistant (contentField ar.content) (some l)] ∧
    (getResponse decode a uq ar).2 = some (Sum.inr (l.map (toToolCall decode))) ∧
    l.map (toToolCall decode) =
      l.map (fun t =>
        ToolCall.mk t.id t.type t.function.name (decode t.function.arguments)) := by
  rcases l with _ | ⟨t, tl⟩
  · exact absurd rfl h2
  · refine ⟨?_, ?_, rfl⟩
    · rw [aux_getResponse_fst]
      simp [assistantMsgOf, toolCallsField, optListTruthy, h1]
    · rw [aux_getResponse_snd]
      simp [optListTruthy, h1]

/-- C6 witness: the tool-call theorem applied to a concrete reply holding
one raw tool call. -/
theorem getResponse_tool_calls_spec_witness :
    (getResponse decode0 agent0 (some "hi") arTools0).1.message_history =
      agent0.message_history ++ userDelta (some "hi") ++
        [Message.assistant (contentField arTools0.content) (some [rawTc0])] ∧
    (getResponse decode0 agent0 (some "hi") arTools0).2 =
      some (Sum.inr ([rawTc0].map (toToolCall decode0))) ∧
    [rawTc0].map (toToolCall decode0) =
      [rawTc0].map (fun t =>
        ToolCall.mk t.id t.type t.function.name (decode0 t.function.arguments)) :=
  getResponse_tool_calls_spec decode0 agent0 (some "hi") arTools0
    [rawTc0] rfl (by decide)

/-- C8: `_get_response` never returns `None`: its value is either a
non-empty `ToolCall` list (when the reply has truthy tool calls) or a
string equal to `content or ""` (absent and empty content both map to
`""`); consequently an `LLM_CALL` iteration always moves to `TOOL_RUN` or
`END`, without raising. -/
theorem getResponse_never_none_spec (decode : String → Args)
    (ddgs : String → List SearchResult) (input : String)
    (ar : AssistantMessage) (c : Config)
    (h : c.agent.state = State.LLM_CALL) :
    (getResponse decode c.agent c.user_query ar).2 ≠ none ∧
    (∀ l, (getResponse decode c.agent c.user_query ar).2 =
        some (Sum.inr l) → l ≠ []) ∧
    (∀ s, (getResponse decode c.agent c.user_query ar).2 =
        some (Sum.inl s) → s = ar.content.getD "") ∧
    ((step decode ddgs input ar c).1.agent.state = State.TOOL_RUN ∨
      (step decode ddgs input ar c).1.agent.state = State.END) ∧
    (step decode ddgs input ar c).2 = none := by
  refine ⟨?_, ?_, ?_, ?_, ?_⟩
  · rw [aux_getResponse_snd]
    rcases ar.tool_calls with _ | ⟨_ | ⟨t, tl⟩⟩ <;> simp [optListTruthy]
  · rcases htc : ar.tool_calls with _ | ⟨_ | ⟨t, tl⟩⟩ <;> intro l hl <;>
      rw [aux_getResponse_snd, htc] at hl <;>
      simp [optListTruthy] at hl
    simp [← hl]
  · rcases htc : ar.tool_calls with _ | ⟨_ | ⟨t, tl⟩⟩ <;> intro s hs <;>
      rw [aux_getResponse_snd, htc] at hs <;>
      simp [optListTruthy] at hs <;> simp [hs]
  · rcases aux_getResponse_shape decode c.agent c.user_query ar with
      ⟨s, hs⟩ | ⟨l, hl0, hl⟩
    · simp [step, h, hs]
    · simp [step, h, hl]
  · rcases aux_getResponse_shape decode c.agent c.user_query ar with
      ⟨s, hs⟩ | ⟨l, hl0, hl⟩
    · simp [step, h, hs]
    · simp [step, h, hl]

/-- Helper: `_run_tool` keeps the `_state` field and only ever appends to
the history, error or not. -/
theorem aux_runTool_frame (ddgs : String → List SearchResult) (a : Agent)
    (tc : ToolCall) :
    (runTool ddgs a tc).1.state = a.state ∧
    ∃ t, (runTool ddgs a tc).1.message_history = a.message_history ++ t := by
  unfold runTool
  by_cases h1 : tc.function_name = "search"
  · by_cases h2 : hasKey tc.arguments "query"
    · exact ⟨by simp [h1, h2], [toolMsgOf ddgs tc], by simp [h1, h2, toolMsgOf]⟩
    · exact ⟨by simp [h1, h2], [], by simp [h1, h2]⟩
  · exact ⟨by simp [h1], [], by simp [h1]⟩

/-- Helper: a successful `_run_tool` call appended exactly the tool message
of its tool call and returned the joined search results. -/
theorem aux_runTool_ok (ddgs : String → List SearchResult) (a : Agent)
    (tc : ToolCall) (a1 : Agent) (r : String)
    (h : runTool ddgs a tc = (a1, Except.ok r)) :
    a1 = { a with message_history := a.message_history ++ [toolMsgOf ddgs tc] } ∧
    r = joinResults (ddgs (getArg tc.arguments "query")) := by
  unfold runTool at h
  by_cases h1 : tc.function_name = "search"
  · by_cases h2 : hasKey tc.arguments "query"
    · simp [h1, h2, Prod.ext_iff] at h
      exact ⟨h.1.symm.trans (by simp [toolMsgOf]), h.2.symm⟩
    · simp [h1, h2, Prod.ext_iff] at h
  · simp [h1, Prod.ext_iff] at h

/-- Helper: the tool loop of the `TOOL_RUN` branch keeps the `_state`
field and only ever appends to the history, error or not. -/
theorem aux_runToolLoop_frame (ddgs : String → List SearchResult)
    (tcs : List ToolCall) :
    ∀ a : Agent,
    (runToolLoop ddgs a tcs).1.state = a.state ∧
    ∃ t, (runToolLoop ddgs a tcs).1.message_history = a.message_history ++ t := by
  induction tcs with
  | nil => intro a; exact ⟨rfl, [], by simp [runToolLoop]⟩
  | cons tc rest ih =>
    intro a
    unfold runToolLoop
    rcases hrt : runTool ddgs a tc with ⟨a1, r⟩
    have hf := aux_runTool_frame ddgs a tc
    rw [hrt] at hf
    obtain ⟨hs1, t1, ht1⟩ := hf
    rcases r with e | v
    · exact ⟨hs1, t1, ht1⟩
    · obtain ⟨hs2, t2, ht2⟩ := ih a1
      exact ⟨hs2.trans hs1, t1 ++ t2,
        by rw [ht2, ht1, List.append_assoc]⟩

/-- Helper: an error-free tool loop appended exactly one tool message per
tool call, in order, and kept the `_state` field. -/
theorem aux_runToolLoop_ok (ddgs : String → List SearchResult)
    (tcs : List ToolCall) :
    ∀ a a1 : Agent, runToolLoop ddgs a tcs = (a1, none) →
    a1.message_history = a.message_history ++ tcs.map (toolMsgOf ddgs) ∧
    a1.state = a.state := by
  induction tcs with
  | nil =>
    intro a a1 h
    simp [runToolLoop, Prod.ext_iff] at h
    simp [← h]
  | cons tc rest ih =>
    intro a a1 h
    unfold runToolLoop at h
    rcases hrt : runTool ddgs a tc with ⟨a2, r⟩
    rw [hrt] at h
    rcases r with e | v
    · simp at h
    · obtain ⟨ha2, -⟩ := aux_runTool_ok ddgs a tc a2 v hrt
      obtain ⟨hh, hs⟩ := ih a2 a1 h
      subst ha2
      exact ⟨by rw [hh]; simp, hs⟩

/-- Helper: one `run` iteration from `START` reads the input and moves to
`LLM_CALL`, touching nothing else. -/
theorem aux_step_START (decode : String → Args)
    (ddgs : String → List SearchResult) (input : String)
    (ar : AssistantMessage) (c : Config) (h : c.agent.state = State.START) :
    step decode ddgs input ar c =
      ({ c with user_query := some input,
                agent := { c.agent with state := State.LLM_CALL } }, none) := by
  simp [step, h]

/-- Helper: one `run` iteration from `LLM_CALL` calls `_get_response`,
clears `user_query`, stores the response and moves to the state the
response's type selects. -/
theorem aux_step_LLM (decode : String → Args)
    (ddgs : String → List SearchResult) (input : String)
    (ar : AssistantMessage) (c : Config)
    (h : c.agent.state = State.LLM_CALL) :
    step decode ddgs input ar c =
      ({ agent := { (getResponse decode c.agent c.user_query ar).1 with
            state :=
              match (getResponse decode c.agent c.user_query ar).2 with
              | some (Sum.inl _) => State.END
              | some (Sum.inr _) => State.TOOL_RUN
              | none => State.LLM_CALL },
         user_query := none,
         response := (getResponse decode c.agent c.user_query ar).2 }, none) := by
  simp [step, h]

/-- Helper: an error-free `run` iteration from `TOOL_RUN` had a tool-call
list response, ran the loop without a `ValueError`, and moved back to
`LLM_CALL`. -/
theorem aux_step_TOOLRUN_inv (decode : String → Args)
    (ddgs : String → List SearchResult) (input : String)
    (ar : AssistantMessage) (c c1 : Config)
    (h : c.agent.state = State.TOOL_RUN)
    (hs : step decode ddgs input ar c = (c1, none)) :
    ∃ tcs a1, c.response = some (Sum.inr tcs) ∧
      runToolLoop ddgs c.agent tcs = (a1, none) ∧
      c1 = { c with agent := { a1 with state := State.LLM_CALL } } := by
  rcases hr : c.response with _ | ⟨s | tcs⟩
  · simp [step, h, hr] at hs
  · simp [step, h, hr] at hs
  · rcases hl : runToolLoop ddgs c.agent tcs with ⟨a1, e⟩
    rcases e with _ | e
    · simp [step, h, hr, hl, Prod.ext_iff] at hs
      exact ⟨tcs, a1, rfl, hl, hs.symm⟩
    · simp [step, h, hr, hl] at hs

/-- Helper: an error-free `run` iteration from `END` had a text response
and moved back to `START`, touching nothing else. -/
theorem aux_step_END_inv (decode : String → Args)
    (ddgs : String → List SearchResult) (input : String)
    (ar : AssistantMessage) (c c1 : Config)
    (h : c.agent.state = State.END)
    (hs : step decode ddgs input ar c = (c1, none)) :
    ∃ s, c.response = some (Sum.inl s) ∧
      c1 = { c with agent := { c.agent with state := State.START } } := by
  rcases hr : c.response with _ | ⟨s | tcs⟩
  · simp [step, h, hr] at hs
  · simp [step, h, hr, Prod.ext_iff] at hs
    exact ⟨s, rfl, hs.symm⟩
  · simp [step, h, hr] at hs

/-- C8 witness: the never-`None` theorem applied at a concrete `LLM_CALL`
configuration and a concrete text reply. -/
theorem getResponse_never_none_spec_witness :
    ((step decode0 ddgs0 "u" arText0 cfgLC0).1.agent.state = State.TOOL_RUN ∨
      (step decode0 ddgs0 "u" arText0 cfgLC0).1.agent.state = State.END) ∧
    (step decode0 ddgs0 "u" arText0 cfgLC0).2 = none :=
  ⟨(getResponse_never_none_spec decode0 ddgs0 "u" arText0 cfgLC0 rfl).2.2.2.1,
   (getResponse_never_none_spec decode0 ddgs0 "u" arText0 cfgLC0 rfl).2.2.2.2⟩

/-- C1 counterexample: from a reachable-shaped `TOOL_RUN` configuration,
one error-free `run` iteration moves to `LLM_CALL`, not to `START` as the
claim (following the spec diagram) states. -/
theorem toolrun_goes_to_llm_call_not_start :
    (step decode0 ddgs0 "u" arText0 cfgTR0).2 = none ∧
    (step decode0 ddgs0 "u" arText0 cfgTR0).1.agent.state = State.LLM_CALL ∧
    State.LLM_CALL ≠ State.START := by
  decide

/-- C1 (amended): the agent's state ranges over exactly `START`,
`LLM_CALL`, `TOOL_RUN`, `END`; an error-free iteration moves `START` to
`LLM_CALL` after reading the input, `LLM_CALL` to `END` on a text response
and to `TOOL_RUN` on a tool-call-list response, `TOOL_RUN` back to
`LLM_CALL` (the model is re-queried, not back to `START`), and `END` back
to `START`; no other transition occurs. -/
theorem run_state_machine (decode : String → Args)
    (ddgs : String → List SearchResult) (input : String)
    (ar : AssistantMessage) (c c1 : Config)
    (h : step decode ddgs input ar c = (c1, none)) :
    (∀ s : State, s = State.START ∨ s = State.LLM_CALL ∨
      s = State.TOOL_RUN ∨ s = State.END) ∧
    (c.agent.state = State.START → c1.agent.state = State.LLM_CALL) ∧
    (c.agent.state = State.LLM_CALL →
       (c1.agent.state = State.END ∧ ∃ s, c1.response = some (Sum.inl s)) ∨
       (c1.agent.state = State.TOOL_RUN ∧ ∃ l, c1.response = some (Sum.inr l))) ∧
    (c.agent.state = State.TOOL_RUN → c1.agent.state = State.LLM_CALL) ∧
    (c.agent.state = State.END → c1.agent.state = State.START) := by
  refine ⟨fun s => by cases s <;> simp, ?_, ?_, ?_, ?_⟩
  · intro hst
    rw [aux_step_START decode ddgs input ar c hst] at h
    injection h with h1 _
    subst h1
    rfl
  · intro hst
    rw [aux_step_LLM decode ddgs input ar c hst] at h
    injection h with h1 _
    subst h1
    rcases aux_getResponse_shape decode c.agent c.user_query ar with
      ⟨s, hs⟩ | ⟨l, hl0, hl⟩
    · exact Or.inl ⟨by simp [hs], s, by simp [hs]⟩
    · exact Or.inr ⟨by simp [hl], l, by simp [hl]⟩
  · intro hst
    obtain ⟨tcs, a1, hr, hl, hc1⟩ :=
      aux_step_TOOLRUN_inv decode ddgs input ar c c1 hst h
    subst hc1
    rfl
  · intro hst
    obtain ⟨s, hr, hc1⟩ := aux_step_END_inv decode ddgs input ar c c1 hst h
    subst hc1
    rfl

/-- C1 witness: the transition theorem applied at a concrete `START`
configuration. -/
theorem run_state_machine_witness :
    emptyTurn1.agent.state = State.LLM_CALL :=
  (run_state_machine decode0 ddgs0 "" arText0 initConfig emptyTurn1 rfl).2.1 rfl

/-- C4: every operation of both components only appends to the message
history: the history before any call of `SimpleChatbot._get_response`,
`SimpleAgent._get_response`, `SimpleAgent._run_tool` or any `run`
iteration is a prefix of the history after it; nothing is deleted,
modified or reordered. -/
theorem history_append_only (sys : Message) (hist : List Message) (q : String)
    (content : Option String) (decode : String → Args)
    (ddgs : String → List SearchResult) (a : Agent) (uq : Option String)
    (ar : AssistantMessage) (tc : ToolCall) (input : String) (c : Config) :
    (∃ t, (SimpleChatbot.getResponse sys hist q content).2.1 = hist ++ t) ∧
    (∃ t, (getResponse decode a uq ar).1.message_history =
        a.message_history ++ t) ∧
    (∃ t, (runTool ddgs a tc).1.message_history = a.message_history ++ t) ∧
    (∃ t, (step decode ddgs input ar c).1.agent.message_history =
        c.agent.message_history ++ t) := by
  refine ⟨?_, ?_, (aux_runTool_frame ddgs a tc).2, ?_⟩
  · unfold SimpleChatbot.getResponse
    by_cases hc : optStrTruthy content <;> simp [hc]
  · rw [aux_getResponse_fst]
    exact ⟨userDelta uq ++ [assistantMsgOf ar], by simp⟩
  · cases hst : c.agent.state
    case START =>
      rw [aux_step_START decode ddgs input ar c hst]
      exact ⟨[], by simp⟩
    case LLM_CALL =>
      rw [aux_step_LLM decode ddgs input ar c hst]
      exact ⟨userDelta c.user_query ++ [assistantMsgOf ar],
        by rw [aux_getResponse_fst]; simp⟩
    case TOOL_RUN =>
      rcases hr : c.response with _ | ⟨s | tcs⟩
      · exact ⟨[], by simp [step, hst, hr]⟩
      · exact ⟨[], by simp [step, hst, hr]⟩
      · rcases hl : runToolLoop ddgs c.agent tcs with ⟨a1, e⟩
        have hf := aux_runToolLoop_frame ddgs tcs c.agent
        rw [hl] at hf
        obtain ⟨-, t, ht⟩ := hf
        rcases e with _ | e
        · exact ⟨t, by simp [step, hst, hr, hl]; exact ht⟩
        · exact ⟨t, by simp [step, hst, hr, hl]; exact ht⟩
    case END =>
      rcases hr : c.response with _ | ⟨s | tcs⟩
      · exact ⟨[], by simp [step, hst, hr]⟩
      · exact ⟨[], by simp [step, hst, hr]⟩
      · exact ⟨[], by simp [step, hst, hr]⟩

/-- C5 counterexample: a completed turn (the loop goes from `START` back
to `START` in three error-free iterations) driven by an empty user input
appends no user message at all — the history of the completed turn holds
one assistant message and zero user messages — refuting "exactly one user
message per turn". -/
theorem empty_input_turn_has_no_user_message :
    (step decode0 ddgs0 "" arText0 initConfig).2 = none ∧
    (step decode0 ddgs0 "" arText0 emptyTurn1).2 = none ∧
    (step decode0 ddgs0 "" arText0 emptyTurn2).2 = none ∧
    initConfig.agent.state = State.START ∧
    emptyTurn3.agent.state = State.START ∧
    List.countP isUserMsg emptyTurn3.agent.message_history = 0 ∧
    emptyTurn3.agent.message_history ≠ [] := by
  decide

/-- C5 (amended): per error-free iteration, a `START` step appends nothing
(it only reads the input into `user_query`); an `LLM_CALL` step appends
the user message exactly when `user_query` is a non-empty string — so at
most one user message per turn, exactly one when the input is non-empty —
followed by exactly one assistant message per model call, and clears
`user_query`, so the re-query after a tool run (with `user_query = None`,
`userDelta none = []`) appends no further user message; a `TOOL_RUN` step
appends exactly one tool message per executed tool call; an `END` step
appends nothing. -/
theorem turn_message_pattern (decode : String → Args)
    (ddgs : String → List SearchResult) (input : String)
    (ar : AssistantMessage) (c c1 : Config)
    (h : step decode ddgs input ar c = (c1, none)) :
    userDelta none = ([] : List Message) ∧
    (c.agent.state = State.START →
        c1.agent.message_history = c.agent.message_history ∧
        c1.user_query = some input) ∧
    (c.agent.state = State.LLM_CALL →
        c1.agent.message_history = c.agent.message_history ++
          userDelta c.user_query ++ [assistantMsgOf ar] ∧
        c1.user_query = none) ∧
    (c.agent.state = State.TOOL_RUN →
        ∃ tcs, c.response = some (Sum.inr tcs) ∧
          c1.agent.message_history = c.agent.message_history ++
            tcs.map (toolMsgOf ddgs)) ∧
    (c.agent.state = State.END →
        c1.agent.message_history = c.agent.message_history) := by
  refine ⟨rfl, ?_, ?_, ?_, ?_⟩
  · intro hst
    rw [aux_step_START decode ddgs input ar c hst] at h
    injection h with h1 _
    subst h1
    exact ⟨rfl, rfl⟩
  · intro hst
    rw [aux_step_LLM decode ddgs input ar c hst] at h
    injection h with h1 _
    subst h1
    exact ⟨by rw [aux_getResponse_fst], rfl⟩
  · intro hst
    obtain ⟨tcs, a1, hr, hl, hc1⟩ :=
      aux_step_TOOLRUN_inv decode ddgs input ar c c1 hst h
    subst hc1
    exact ⟨tcs, hr, (aux_runToolLoop_ok ddgs tcs c.agent a1 hl).1⟩
  · intro hst
    obtain ⟨s, hr, hc1⟩ := aux_step_END_inv decode ddgs input ar c c1 hst h
    subst hc1
    rfl

/-- C5 witness: the per-iteration pattern applied at a concrete `LLM_CALL`
configuration with a pending non-empty user query. -/
theorem turn_message_pattern_witness :
    (step decode0 ddgs0 "u" arText0 cfgLC0).1.agent.message_history =
      cfgLC0.agent.message_history ++ userDelta cfgLC0.user_query ++
        [assistantMsgOf arText0] ∧
    (step decode0 ddgs0 "u" arText0 cfgLC0).1.user_query = none :=
  (turn_message_pattern decode0 ddgs0 "u" arText0 cfgLC0
    (step decode0 ddgs0 "u" arText0 cfgLC0).1 rfl).2.2.1 rfl

/-- Helper: after any error-free `run` iteration, being in `TOOL_RUN`
implies the stored response is a tool-call list and being in `END` implies
it is a string. -/
theorem aux_step_resp_inv (decode : String → Args)
    (ddgs : String → List SearchResult) (input : String)
    (ar : AssistantMessage) (c c1 : Config)
    (h : step decode ddgs input ar c = (c1, none)) :
    (c1.agent.state = State.TOOL_RUN → ∃ l, c1.response = some (Sum.inr l)) ∧
    (c1.agent.state = State.END → ∃ s, c1.response = some (Sum.inl s)) := by
  cases hst : c.agent.state
  case START =>
    rw [aux_step_START decode ddgs input ar c hst] at h
    injection h with h1 _
    subst h1
    exact ⟨fun hx => by simp at hx, fun hx => by simp at hx⟩
  case LLM_CALL =>
    rw [aux_step_LLM decode ddgs input ar c hst] at h
    injection h with h1 _
    subst h1
    rcases aux_getResponse_shape decode c.agent c.user_query ar with
      ⟨s, hs⟩ | ⟨l, hl0, hl⟩
    · exact ⟨fun hx => by simp [hs] at hx, fun _ => ⟨s, by simp [hs]⟩⟩
    · exact ⟨fun _ => ⟨l, by simp [hl]⟩, fun hx => by simp [hl] at hx⟩
  case TOOL_RUN =>
    obtain ⟨tcs, a1, hr, hl, hc1⟩ :=
      aux_step_TOOLRUN_inv decode ddgs input ar c c1 hst h
    subst hc1
    exact ⟨fun hx => by simp at hx, fun hx => by simp at hx⟩
  case END =>
    obtain ⟨s, hr, hc1⟩ := aux_step_END_inv decode ddgs input ar c c1 hst h
    subst hc1
    exact ⟨fun hx => by simp at hx, fun hx => by simp at hx⟩

/-- Helper: the response-type invariant holds in every reachable
configuration of the `run` loop. -/
theorem aux_reachable_inv (decode : String → Args)
    (ddgs : String → List SearchResult) (c : Config)
    (h : Reachable decode ddgs c) :
    (c.agent.state = State.TOOL_RUN → ∃ l, c.response = some (Sum.inr l)) ∧
    (c.agent.state = State.END → ∃ s, c.response = some (Sum.inl s)) := by
  induction h with
  | init =>
    exact ⟨fun hx => by simp [initConfig] at hx,
           fun hx => by simp [initConfig] at hx⟩
  | next c c1 input ar hr hstep ih =>
    exact aux_step_resp_inv decode ddgs input ar c c1 hstep

/-- C9: in every reachable configuration of the `run` loop, `TOOL_RUN`
implies the current response is a list of tool calls and `END` implies it
is a string; hence neither `isinstance` guard of the `TOOL_RUN` / `END`
branches can ever raise its `ValueError`. -/
theorem run_guards_never_fire (decode : String → Args)
    (ddgs : String → List SearchResult) (c : Config)
    (h : Reachable decode ddgs c) :
    (c.agent.state = State.TOOL_RUN → ∃ l, c.response = some (Sum.inr l)) ∧
    (c.agent.state = State.END → ∃ s, c.response = some (Sum.inl s)) ∧
    (∀ input ar m, (step decode ddgs input ar c).2 ≠
        some (RunError.typeGuard m)) := by
  have inv := aux_reachable_inv decode ddgs c h
  refine ⟨inv.1, inv.2, ?_⟩
  intro input ar m hguard
  cases hst : c.agent.state
  case START =>
    rw [aux_step_START decode ddgs input ar c hst] at hguard
    simp at hguard
  case LLM_CALL =>
    rw [aux_step_LLM decode ddgs input ar c hst] at hguard
    simp at hguard
  case TOOL_RUN =>
    obtain ⟨l, hl⟩ := inv.1 hst
    rcases hloop : runToolLoop ddgs c.agent l with ⟨a1, e⟩
    rcases e with _ | e
    · simp [step, hst, hl, hloop] at hguard
    · simp [step, hst, hl, hloop] at hguard
  case END =>
    obtain ⟨s, hs⟩ := inv.2 hst
    simp [step, hst, hs] at hguard

/-- C9 witness: the guard theorem applied at the initial configuration. -/
theorem run_guards_never_fire_witness :
    (step decode0 ddgs0 "u" arText0 initConfig).2 ≠
      some (RunError.typeGuard "response must be a string.") :=
  (run_guards_never_fire decode0 ddgs0 initConfig Reachable.init).2.2 "u"
    arText0 "response must be a string."

end AgentRepo
